import Mathlib

/-!
Verification of the energyprices pipeline (fetch_prices.py, fetch_dynamic_gas.py,
fetch_dynamic_electricity.py) against its specification.

Conventions of the embedding:
* Month keys "YYYY-MM" are encoded as the natural number year * 100 + month.
  Lexicographic comparison of the zero-padded strings (which is what pandas
  performs on the month column) agrees with numeric comparison on this encoding.
* Prices are rationals; Python float arithmetic is modelled exactly on the
  rational values the source computes with.
* A pandas DataFrame of monthly rows is a list of Row records, in row order.
-/

namespace EnergyPrices

/-- A row of a persisted monthly dataset (columns month, total_price),
as produced by build_monthly_csv in fetch_prices.py. -/
structure Row where
  month : Nat
  total_price : ℚ
  deriving DecidableEq, Repr

/-- The strict ascending-month ordering on rows; a dataset that is sorted
ascending and unique by month is exactly a list pairwise in this relation. -/
def monthLT (a b : Row) : Prop := a.month < b.month

/-- The (non-strict) ordering used to model pandas sort_values on the month
column: months are compared as encoded keys. -/
def monthLE (a b : Row) : Bool := a.month ≤ b.month

/-- pandas sort_values on the month column (fetch_prices.py line 197 / 214).
The keys are unique at every call site (they come out of drop_duplicates), so
any comparison sort computes the same list; we use insertion sort. -/
def sortByMonth (rows : List Row) : List Row :=
  List.insertionSort (fun a b => a.month ≤ b.month) rows

/-- pandas drop_duplicates(subset month, keep last) (fetch_prices.py line 196 /
213): a row survives exactly when no later row carries the same month key. -/
def dedupKeepLast : List Row → List Row
  | [] => []
  | r :: rest =>
    if rest.any (fun s => s.month == r.month) then dedupKeepLast rest
    else r :: dedupKeepLast rest

/-- The merge step of main (fetch_prices.py lines 192-197 for electricity,
209-214 for gas): when the existing dataset is non-empty it is filtered to the
months strictly below the cutoff month, the fresh rows are appended,
duplicates are dropped keeping the last occurrence, and the result is sorted
by month. -/
def mergeMonthly (existing fresh : List Row) (cutoff : Nat) : List Row :=
  sortByMonth (dedupKeepLast
    ((if existing.isEmpty then existing
      else existing.filter (fun s => decide (s.month < cutoff))) ++ fresh))

instance : DecidableRel monthLT :=
  fun a b => inferInstanceAs (Decidable (a.month < b.month))

/-- A timezone-aware timestamp already normalized to UTC (the fetchers convert
to UTC before any date-key computation), at the minute granularity the
pipeline uses. -/
structure UTCTime where
  year : Nat
  month : Nat
  day : Nat
  hour : Nat
  minute : Nat
  deriving DecidableEq, Repr

/-- strftime of the "YYYY-MM" month key of a UTC timestamp, encoded. -/
def monthKeyOf (t : UTCTime) : Nat := t.year * 100 + t.month

/-- timestamp.date().isoformat() of a UTC timestamp: the "YYYY-MM-DD" calendar
date key, encoded as year * 10000 + month * 100 + day. -/
def dateKeyOf (t : UTCTime) : Nat := (t.year * 100 + t.month) * 100 + t.day

/-- The instant itself, encoded so that for in-range hours and minutes the
encoding is injective and ordered chronologically; pandas sort_values on the
time column sorts by this key. -/
def timeKeyOf (t : UTCTime) : Nat :=
  ((t.year * 100 + t.month) * 100 + t.day) * 10000 + (t.hour * 100 + t.minute)

/-- Hours and minutes of a real timestamp are in range; under this bound
timeKeyOf determines dateKeyOf. -/
def WFTime (t : UTCTime) : Prop := t.hour < 24 ∧ t.minute < 60

instance (t : UTCTime) : Decidable (WFTime t) :=
  inferInstanceAs (Decidable (_ ∧ _))

/-- One canonical price observation: a row of the DataFrames returned by the
fetchers (columns time, price). -/
structure PricePoint where
  time : UTCTime
  price : ℚ
  deriving DecidableEq, Repr

/-- The first entry of an association list with key k: a Python dict lookup,
exact when keys are unique. -/
def lookupKey {α : Type} (k : Nat) (l : List (Nat × α)) : Option (Nat × α) :=
  l.find? (fun e => e.1 == k)

/-- The stored value at key k. -/
def lookupVal {α : Type} (k : Nat) (l : List (Nat × α)) : Option α :=
  (lookupKey k l).map (fun e => e.2)

instance : IsTotal (Nat × ℚ) (fun a b => a.1 ≤ b.1) :=
  ⟨fun a b => Nat.le_total a.1 b.1⟩

instance : IsTrans (Nat × ℚ) (fun a b => a.1 ≤ b.1) :=
  ⟨fun _ _ _ hab hbc => Nat.le_trans hab hbc⟩

/-- How a month's accumulated (sum, count) combines with the prices of the
remaining occurrences of that month; used to reason about groupByMonth. -/
def combineGroup (o : Option (ℚ × Nat)) (qs : List ℚ) : Option (ℚ × Nat) :=
  match o with
  | some sc => some (sc.1 + qs.sum, sc.2 + qs.length)
  | none => if qs = [] then none else some (qs.sum, qs.length)

/-- One step of grouping a price point into per-month accumulators of
(month key, running sum, count); models how groupby collects the rows that
share a month key. -/
def addToGroups (acc : List (Nat × ℚ × Nat)) (p : PricePoint) : List (Nat × ℚ × Nat) :=
  if acc.any (fun g => g.1 == monthKeyOf p.time) then
    acc.map (fun g =>
      if g.1 == monthKeyOf p.time then (g.1, g.2.1 + p.price, g.2.2 + 1) else g)
  else acc ++ [(monthKeyOf p.time, p.price, 1)]

def groupByMonth (pts : List PricePoint) : List (Nat × ℚ × Nat) :=
  pts.foldl addToGroups []

/-- groupby returns its groups sorted ascending by key. -/
def sortByKey (l : List (Nat × ℚ)) : List (Nat × ℚ) :=
  List.insertionSort (fun a b => a.1 ≤ b.1) l

/-- get_monthly_avg (fetch_prices.py lines 86-93): group the series on the
strftime "YYYY-MM" month key of the UTC time column and take the mean of the
price column per group. -/
def get_monthly_avg (pts : List PricePoint) : List (Nat × ℚ) :=
  sortByKey ((groupByMonth pts).map (fun g => (g.1, g.2.1 / (g.2.2 : ℚ))))

/-- The list of prices of a series that fall in month k (the group behind
key k). -/
def monthPrices (k : Nat) (pts : List PricePoint) : List ℚ :=
  (pts.filter (fun p => monthKeyOf p.time == k)).map (fun p => p.price)

/-- Round to the nearest integer, ties to even: the rounding of Python's
built-in round, used by round(x, 5). -/
def roundHalfEven (q : ℚ) : ℤ :=
  if q - ⌊q⌋ < 1 / 2 then ⌊q⌋
  else if 1 / 2 < q - ⌊q⌋ then ⌊q⌋ + 1
  else if ⌊q⌋ % 2 = 0 then ⌊q⌋ else ⌊q⌋ + 1

/-- Python round(q, 5). -/
def pyRound5 (q : ℚ) : ℚ := (roundHalfEven (q * 100000) : ℚ) / 100000

/-- build_monthly_csv (fetch_prices.py lines 96-109): one output row per
monthly aggregate, total_price = the all-in monthly price rounded to 5
decimals (the ANWB allInPrijs already includes taxes and procurement). -/
def build_monthly_csv (monthly : List (Nat × ℚ)) : List Row :=
  monthly.map (fun g => Row.mk g.1 (pyRound5 g.2))

/-- A raw record of the ANWB gas API: the timestamp parsed from its date
field (UTC, the +00:00 offset is attached before parsing), and the optional
allInPrijs value in cents. -/
structure RawGasItem where
  date : UTCTime
  allInPrijs : Option ℚ
  deriving DecidableEq, Repr

/-- One daily price entry as stored in the daily_prices dict of
fetch_anwb_gas_prices_batch: the full timestamp and the price in euros. -/
structure GasEntry where
  time : UTCTime
  price : ℚ
  deriving DecidableEq, Repr

instance : IsTotal GasEntry (fun a b => timeKeyOf a.time ≤ timeKeyOf b.time) :=
  ⟨fun a b => Nat.le_total (timeKeyOf a.time) (timeKeyOf b.time)⟩

instance : IsTrans GasEntry (fun a b => timeKeyOf a.time ≤ timeKeyOf b.time) :=
  ⟨fun _ _ _ hab hbc => Nat.le_trans hab hbc⟩

/-- The loop body of fetch_anwb_gas_prices_batch (fetch_dynamic_gas.py lines
160-172): a record is stored only when its calendar-date key is not yet in the
dict and it carries an allInPrijs value, converted from cents to euros.
Python dicts preserve insertion order, modelled by appending. -/
def insertDaily (d : List (Nat × GasEntry)) (item : RawGasItem) : List (Nat × GasEntry) :=
  if d.any (fun e => e.1 == dateKeyOf item.date) then d
  else
    match item.allInPrijs with
    | some cents => d ++ [(dateKeyOf item.date, ⟨item.date, cents / 100⟩)]
    | none => d

/-- fetch_anwb_gas_prices_batch (fetch_dynamic_gas.py lines 143-172): the
daily_prices dict built from one batch of raw API records. -/
def fetch_anwb_gas_prices_batch (items : List RawGasItem) : List (Nat × GasEntry) :=
  items.foldl insertDaily []

/-- One entry of a Python dict.update: an existing key keeps its position but
takes the new value; a fresh key is appended. -/
def updateEntry (acc : List (Nat × GasEntry)) (kv : Nat × GasEntry) : List (Nat × GasEntry) :=
  if acc.any (fun e => e.1 == kv.1) then
    acc.map (fun e => if e.1 == kv.1 then (e.1, kv.2) else e)
  else acc ++ [kv]

/-- Python dict.update (fetch_dynamic_gas.py line 203): entries of the new
dict overwrite same-key entries of the old dict in place; fresh keys are
appended in their order. -/
def dictUpdate (old newEntries : List (Nat × GasEntry)) : List (Nat × GasEntry) :=
  newEntries.foldl updateEntry old

/-- Every entry of the daily-prices dict stores an observation whose
timestamp truncates to the entry's own date key and is in range. -/
def WFEntry (e : Nat × GasEntry) : Prop :=
  dateKeyOf e.2.time = e.1 ∧ WFTime e.2.time

/-- The batch loop of get_dynamic_gas_prices (fetch_dynamic_gas.py lines
189-209): successive 90-day batches are merged into all_daily_prices with
dict.update; a batch whose fetch raises is caught and contributes nothing
(modelled as none). -/
def gasBatchesDict (batches : List (Option (List RawGasItem))) : List (Nat × GasEntry) :=
  batches.foldl (fun acc ob =>
    match ob with
    | none => acc
    | some items => dictUpdate acc (fetch_anwb_gas_prices_batch items)) []

/-- get_dynamic_gas_prices (fetch_dynamic_gas.py lines 175-220): the dict
values as a DataFrame sorted ascending on the (already UTC) time column. -/
def get_dynamic_gas_prices (batches : List (Option (List RawGasItem))) : List GasEntry :=
  List.insertionSort (fun a b => timeKeyOf a.time ≤ timeKeyOf b.time)
    ((gasBatchesDict batches).map Prod.snd)

/-- The entry made from the first record of a batch that carries a given date
key together with a price: what insertDaily retains for that key. -/
def firstWithKey (k : Nat) (items : List RawGasItem) : Option GasEntry :=
  (items.find? (fun it => dateKeyOf it.date == k && it.allInPrijs.isSome)).bind
    (fun it => it.allInPrijs.map (fun cents => GasEntry.mk it.date (cents / 100)))

/-- The last defined value among the per-batch results: which batch a chain
of dict.update calls lets win. -/
def lastSome {α : Type} : List (Option α) → Option α
  | [] => none
  | o :: rest => (lastSome rest).or o

/-- A calendar date, as held by a Python datetime at day granularity. -/
structure Date where
  year : Nat
  month : Nat
  day : Nat
  deriving DecidableEq, Repr

/-- The state of the persisted CSV as seen by pandas read_csv: none when the
file does not exist or cannot be read, otherwise whether a month column is
present, plus the rows. -/
structure Csv where
  hasMonth : Bool
  rows : List Row

/-- datetime.strptime of an encoded "YYYY-MM" month key with format %Y-%m:
a datetime on the first day of that month. -/
def parseMonthKey (ym : Nat) : Date := ⟨ym / 100, ym % 100, 1⟩

/-- get_last_known_month (fetch_prices.py lines 12-27): none when the file is
missing, has no month column or no rows; otherwise the parsed month key of the
last row. -/
def get_last_known_month : Option Csv → Option Date
  | none => none
  | some csv =>
      if csv.hasMonth = false || csv.rows.isEmpty then none
      else csv.rows.getLast?.map (fun r => parseMonthKey r.month)

/-- datetime.replace(day=1), applied to the last known month in main. -/
def startOfMonth (d : Date) : Date := ⟨d.year, d.month, 1⟩

/-- The re-fetch start date computed in main (fetch_prices.py lines 160-180):
start of the last known month, or 2021-01-01 when there is none. -/
def computeStart (file : Option Csv) : Date :=
  match get_last_known_month file with
  | some d => startOfMonth d
  | none => ⟨2021, 1, 1⟩

/-- strftime %Y-%m of a date, encoded: the cutoff month key used by the
merge. -/
def monthKeyOfDate (d : Date) : Nat := d.year * 100 + d.month

/-- One commodity branch of main (fetch_prices.py lines 184-197 and 201-214):
if the fetch returned None or an empty DataFrame the existing data is reused
verbatim, otherwise fresh monthly rows are built and merged at the cutoff
month of the start date. -/
def runCommodity (existing : List Row) (fetched : Option (List PricePoint))
    (start : Date) : List Row :=
  match fetched with
  | none => existing
  | some pts =>
      if pts.isEmpty then existing
      else mergeMonthly existing (build_monthly_csv (get_monthly_avg pts))
        (monthKeyOfDate start)

/-- calculate_energy_tax_rate (fetch_dynamic_electricity.py lines 24-40):
year-keyed table; a year outside the table falls back to the most recent
table year (2026). -/
def calculate_energy_tax_rate (year : Nat) : ℚ :=
  if year = 2023 then 0.12599
  else if year = 2024 then 0.10880
  else if year = 2025 then 0.10154
  else if year = 2026 then 0.10154
  else 0.10154

/-- The per-row price breakdown columns written by fetch_entsoe_prices. -/
structure Breakdown where
  base_price : ℚ
  energy_tax : ℚ
  procurement_costs : ℚ
  vat : ℚ
  total_price : ℚ
  deriving DecidableEq, Repr

/-- The breakdown computed by fetch_entsoe_prices
(fetch_dynamic_electricity.py lines 269-283): base price is the spot price,
energy tax from the year table, procurement a fixed 0.04, VAT 21% of the sum
of the three, and total_price = base + tax + procurement + vat. -/
def entsoe_price_breakdown (t : UTCTime) (price : ℚ) : Breakdown :=
  { base_price := price
    energy_tax := calculate_energy_tax_rate t.year
    procurement_costs := 0.04
    vat := (price + calculate_energy_tax_rate t.year + 0.04) * 0.21
    total_price := price + calculate_energy_tax_rate t.year + 0.04
      + (price + calculate_energy_tax_rate t.year + 0.04) * 0.21 }

/-- The month abbreviations of strftime %b in the C locale. The repository
never calls locale.setlocale, so the process stays in the C locale and both
strftime %b and strptime %b use exactly this table. -/
def monthAbbrev : Nat → String
  | 1 => "Jan"
  | 2 => "Feb"
  | 3 => "Mar"
  | 4 => "Apr"
  | 5 => "May"
  | 6 => "Jun"
  | 7 => "Jul"
  | 8 => "Aug"
  | 9 => "Sep"
  | 10 => "Oct"
  | 11 => "Nov"
  | 12 => "Dec"
  | _ => ""

/-- str.lower: every character lowercased. -/
def toLowerStr (s : String) : String :=
  String.mk (s.data.map Char.toLower)

/-- Zero-padded two-digit rendering (strftime %y and %m). -/
def twoDigit (n : Nat) : String :=
  if n < 10 then "0" ++ toString n else toString n

/-- strftime "%b-%y" followed by str.lower, applied to a parsed (year, month)
datetime: the DATE relabeling in main (fetch_prices.py lines 241-245). -/
def toLabel (y m : Nat) : String :=
  toLowerStr (monthAbbrev m ++ "-" ++ twoDigit (y % 100))

/-- strftime "%Y-%m" of a datetime with a four-digit year: the pipeline month
key format. -/
def keyStr (y m : Nat) : String :=
  toString y ++ "-" ++ twoDigit m

def digitVal (c : Char) : Option Nat :=
  if c.isDigit then some (c.toNat - 48) else none

/-- strptime %y: two digits; 00-68 map to 2000-2068, 69-99 to 1969-1999. -/
def parseTwoDigitYear (c1 c2 : Char) : Option Nat :=
  match digitVal c1, digitVal c2 with
  | some a, some b =>
      some (if a * 10 + b ≤ 68 then 2000 + (a * 10 + b) else 1900 + (a * 10 + b))
  | _, _ => none

/-- strptime "%Y-%m" on a 7-character string: four digits, a dash, two
digits, month between 1 and 12; any other shape raises, modelled as none. -/
def strptimeYm (s : String) : Option (Nat × Nat) :=
  match s.data with
  | [y1, y2, y3, y4, '-', m1, m2] =>
    match digitVal y1, digitVal y2, digitVal y3, digitVal y4,
        digitVal m1, digitVal m2 with
    | some a, some b, some c, some d, some e, some f =>
        if 1 ≤ e * 10 + f ∧ e * 10 + f ≤ 12 then
          some (((a * 10 + b) * 10 + c) * 10 + d, e * 10 + f)
        else none
    | _, _, _, _, _, _ => none
  | _ => none

/-- strptime %b matches a C-locale month abbreviation case-insensitively. -/
def parseAbbrevMonth (c1 c2 c3 : Char) : Option Nat :=
  ((List.range 12).find? (fun i =>
      [c1.toLower, c2.toLower, c3.toLower]
        == (monthAbbrev (i + 1)).data.map Char.toLower)).map (fun i => i + 1)

/-- strptime "%b-%y" on a 6-character string. -/
def strptimeBy (s : String) : Option (Nat × Nat) :=
  match s.data with
  | [c1, c2, c3, '-', d1, d2] =>
    match parseAbbrevMonth c1 c2 c3, parseTwoDigitYear d1 d2 with
    | some m, some y => some (y, m)
    | _, _ => none
  | _ => none

/-- The first character is lowercased when not already lowercase
(fetch_prices.py lines 137-138); on a digit this is the identity. -/
def lowerFirst (s : String) : String :=
  match s.data with
  | [] => s
  | c :: rest => if c.isLower then s else String.mk (Char.toLower c :: rest)

/-- month_gt_mar25 (fetch_prices.py lines 131-148): recognizes both the
"mon-yy" format (length 6) and the "YYYY-MM" format (length 7) and tests the
parsed first-of-month date against datetime(2025, 3, 1); any parse failure or
other shape yields False. -/
def month_gt_mar25 (s : String) : Bool :=
  if s.length = 6 && s.data.contains '-' then
    match strptimeBy (lowerFirst s) with
    | some ym => decide (2025 < ym.1 ∨ (ym.1 = 2025 ∧ 3 < ym.2))
    | none => false
  else if s.length = 7 && s.data.contains '-' then
    match strptimeYm s with
    | some ym => decide (2025 < ym.1 ∨ (ym.1 = 2025 ∧ 3 < ym.2))
    | none => false
  else false

/-- The DATE relabeling lambda in main (fetch_prices.py lines 241-245):
"YYYY-MM" values (length 7, a dash, dash at index 4) are rewritten to the
lowercase "%b-%y" label; other values pass through unchanged. A string that
passes the guard but still fails to parse would raise inside the lambda; that
branch is modelled as the identity and is never reached for well-formed
keys. -/
def relabelDate (s : String) : String :=
  if s.length = 7 && s.data.contains '-' && s.data.getD 4 ' ' == '-' then
    match strptimeYm s with
    | some ym => toLabel ym.1 ym.2
    | none => s
  else s

/-- Outcome of the HTTP layer of the EnergyZero fetch: a network failure
(requests raises), an unusable payload (no recognizable price array), or a
parsed list of price points. -/
inductive FetchOutcome where
  | requestError
  | badPayload
  | ok (pts : List PricePoint)

/-- fetch_energyzero_prices (fetch_dynamic_electricity.py lines 42-152): a
RequestException and a ValueError are both caught and turned into a None
return; an empty price array raises ValueError, also caught. No exception
escapes to the caller. -/
def fetch_energyzero_prices : FetchOutcome → Option (List PricePoint)
  | FetchOutcome.requestError => none
  | FetchOutcome.badPayload => none
  | FetchOutcome.ok pts => if pts.isEmpty then none else some pts

/-- get_dynamic_electricity_prices (fetch_dynamic_electricity.py lines
339-358): normalizes the time column to UTC (already UTC in this model) and
passes a None result through unchanged. -/
def get_dynamic_electricity_prices (o : FetchOutcome) : Option (List PricePoint) :=
  fetch_energyzero_prices o

/-- The electricity half of a run of main including the unconditional
to_csv write (fetch_prices.py line 217): the value is the row list written to
the persisted file; some because the write always happens. -/
def runAndWrite (existing : List Row) (o : FetchOutcome) (start : Date) :
    Option (List Row) :=
  some (runCommodity existing (get_dynamic_electricity_prices o) start)

lemma kept_eq_filter (l : List Row) (c : Nat) :
    (if l.isEmpty then l else l.filter (fun s => decide (s.month < c)))
      = l.filter (fun s => decide (s.month < c)) := by
  cases l <;> simp

lemma dedupKeepLast_eq_self {l : List Row}
    (h : l.Pairwise (fun a b => a.month ≠ b.month)) : dedupKeepLast l = l := by
  induction l with
  | nil => rfl
  | cons r rest ih =>
    rw [List.pairwise_cons] at h
    have hany : rest.any (fun s => s.month == r.month) = false := by
      simp only [List.any_eq_false, beq_iff_eq]
      intro s hs
      exact fun hEq => (h.1 s hs) hEq.symm
    simp [dedupKeepLast, hany, ih h.2]

lemma sortByMonth_eq_self {l : List Row}
    (h : l.Pairwise (fun a b => a.month ≤ b.month)) : sortByMonth l = l :=
  List.Sorted.insertionSort_eq h

/-- C1: the Merge Engine output is the kept prefix (persisted rows strictly
below the cutoff) followed by the fresh rows, and it is strictly sorted (hence
duplicate-free) by month. -/
theorem merge_correct (existing fresh : List Row) (cutoff : Nat)
    (hex : existing.Pairwise monthLT)
    (hf : fresh.Pairwise monthLT)
    (hge : ∀ r ∈ fresh, cutoff ≤ r.month) :
    mergeMonthly existing fresh cutoff
        = existing.filter (fun s => decide (s.month < cutoff)) ++ fresh
      ∧ (mergeMonthly existing fresh cutoff).Pairwise monthLT := by
  have hkeptlt : ∀ r ∈ existing.filter (fun s => decide (s.month < cutoff)),
      r.month < cutoff := by
    intro r hr
    have := List.of_mem_filter hr
    simpa using this
  have hkept : (existing.filter (fun s => decide (s.month < cutoff))).Pairwise monthLT :=
    hex.sublist (List.filter_sublist _)
  have happ : (existing.filter (fun s => decide (s.month < cutoff)) ++ fresh).Pairwise monthLT := by
    rw [List.pairwise_append]
    refine ⟨hkept, hf, ?_⟩
    intro a ha b hb
    exact lt_of_lt_of_le (hkeptlt a ha) (hge b hb)
  have hne : (existing.filter (fun s => decide (s.month < cutoff)) ++ fresh).Pairwise
      (fun a b => a.month ≠ b.month) :=
    happ.imp (fun hab => Nat.ne_of_lt hab)
  have hle : (existing.filter (fun s => decide (s.month < cutoff)) ++ fresh).Pairwise
      (fun a b => a.month ≤ b.month) :=
    happ.imp (fun hab => Nat.le_of_lt hab)
  have heq : mergeMonthly existing fresh cutoff
      = existing.filter (fun s => decide (s.month < cutoff)) ++ fresh := by
    unfold mergeMonthly
    rw [kept_eq_filter, dedupKeepLast_eq_self hne, sortByMonth_eq_self hle]
  exact ⟨heq, heq ▸ happ⟩

/-- Witness for merge_correct: a persisted dataset ending at 2025-02 merged
with fresh rows for 2025-02 and 2025-03 at cutoff 2025-02. -/
theorem merge_correct_witness :
    ([⟨202501, 10⟩, ⟨202502, 20⟩] : List Row).Pairwise monthLT
      ∧ ([⟨202502, 30⟩, ⟨202503, 40⟩] : List Row).Pairwise monthLT
      ∧ mergeMonthly [⟨202501, 10⟩, ⟨202502, 20⟩] [⟨202502, 30⟩, ⟨202503, 40⟩] 202502
          = List.filter (fun s => decide (s.month < 202502)) [⟨202501, 10⟩, ⟨202502, 20⟩]
            ++ [⟨202502, 30⟩, ⟨202503, 40⟩] :=
  ⟨by decide, by decide,
    (merge_correct [⟨202501, 10⟩, ⟨202502, 20⟩] [⟨202502, 30⟩, ⟨202503, 40⟩] 202502
      (by decide) (by decide) (by decide)).1⟩

lemma filter_lt_append_filter_ge (l : List Row) (c : Nat)
    (h : l.Pairwise monthLT) :
    l.filter (fun s => decide (s.month < c)) ++ l.filter (fun s => decide (c ≤ s.month)) = l := by
  induction l with
  | nil => rfl
  | cons a t ih =>
    rw [List.pairwise_cons] at h
    by_cases hc : a.month < c
    · have h1 : (decide (a.month < c)) = true := by simpa using hc
      have h2 : (decide (c ≤ a.month)) = false := by simpa using hc
      simp [List.filter_cons, h1, h2, ih h.2]
    · have hle : c ≤ a.month := Nat.le_of_not_lt hc
      have h1 : (decide (a.month < c)) = false := by simpa using hc
      have h2 : (decide (c ≤ a.month)) = true := by simpa using hle
      have ht1 : t.filter (fun s => decide (s.month < c)) = [] := by
        rw [List.filter_eq_nil_iff]
        intro s hs
        have : a.month < s.month := h.1 s hs
        simp only [decide_eq_true_eq]
        omega
      have ht2 : t.filter (fun s => decide (c ≤ s.month)) = t := by
        rw [List.filter_eq_self]
        intro s hs
        have : a.month < s.month := h.1 s hs
        simp only [decide_eq_true_eq]
        omega
      simp [List.filter_cons, h1, h2, ht1, ht2]

/-- C2: merging a sorted month-unique dataset with fresh rows that reproduce
its watermark-month-and-later rows (the watermark being the month of its last
row) returns the dataset unchanged. -/
theorem merge_idempotent (rows : List Row) (r : Row)
    (h : (rows ++ [r]).Pairwise monthLT) :
    mergeMonthly (rows ++ [r])
        ((rows ++ [r]).filter (fun s => decide (r.month ≤ s.month))) r.month
      = rows ++ [r] := by
  have hf : ((rows ++ [r]).filter (fun s => decide (r.month ≤ s.month))).Pairwise monthLT :=
    h.sublist (List.filter_sublist _)
  have hge : ∀ s ∈ (rows ++ [r]).filter (fun t => decide (r.month ≤ t.month)),
      r.month ≤ s.month := by
    intro s hs
    have := List.of_mem_filter hs
    simpa using this
  have := (merge_correct (rows ++ [r])
    ((rows ++ [r]).filter (fun s => decide (r.month ≤ s.month))) r.month h hf hge).1
  rw [this, filter_lt_append_filter_ge (rows ++ [r]) r.month h]

/-- Witness for merge_idempotent on a three-month dataset. -/
theorem merge_idempotent_witness :
    (([⟨202101, 5⟩, ⟨202102, 6⟩] : List Row) ++ ([⟨202103, 7⟩] : List Row)).Pairwise monthLT
      ∧ mergeMonthly (([⟨202101, 5⟩, ⟨202102, 6⟩] : List Row) ++ ([⟨202103, 7⟩] : List Row))
          ((([⟨202101, 5⟩, ⟨202102, 6⟩] : List Row) ++ ([⟨202103, 7⟩] : List Row)).filter
            (fun s => decide ((202103 : Nat) ≤ s.month))) 202103
        = ([⟨202101, 5⟩, ⟨202102, 6⟩] : List Row) ++ ([⟨202103, 7⟩] : List Row) :=
  ⟨by decide, merge_idempotent [⟨202101, 5⟩, ⟨202102, 6⟩] (⟨202103, 7⟩ : Row) (by decide)⟩

/-- C3: the re-fetch watermark is the first day of the month key of the last
persisted row; when the file is missing, has no month column or has no rows,
it is the fixed epoch start 2021-01-01. -/
theorem watermark_correct :
    (computeStart none = ⟨2021, 1, 1⟩
      ∧ (∀ rows : List Row, computeStart (some ⟨false, rows⟩) = ⟨2021, 1, 1⟩)
      ∧ (∀ hasMonth : Bool, computeStart (some ⟨hasMonth, []⟩) = ⟨2021, 1, 1⟩))
    ∧ ∀ (rows : List Row) (r : Row),
        computeStart (some ⟨true, rows ++ [r]⟩)
          = ⟨r.month / 100, r.month % 100, 1⟩ := by
  refine ⟨⟨rfl, fun rows => rfl, fun hasMonth => by cases hasMonth <;> rfl⟩, ?_⟩
  intro rows r
  simp [computeStart, get_last_known_month, startOfMonth, parseMonthKey]

/-- C4: when the provider fetch returns None or an empty DataFrame, the
commodity output is the previously persisted dataset unchanged. -/
theorem empty_fetch_emits_existing (existing : List Row) (start : Date) :
    runCommodity existing none start = existing
      ∧ runCommodity existing (some []) start = existing :=
  ⟨rfl, rfl⟩

/-- C5 fails on the code: a failing fetch does not propagate any error — it is
caught and turned into None — and the persisted file is still written (with
the previously persisted rows), so a write does occur. -/
theorem fetch_failure_counterexample :
    runAndWrite [⟨202101, 1⟩] FetchOutcome.requestError ⟨2021, 1, 1⟩
        = some [⟨202101, 1⟩]
      ∧ runAndWrite [⟨202101, 1⟩] FetchOutcome.requestError ⟨2021, 1, 1⟩ ≠ none :=
  ⟨rfl, fun h => Option.noConfusion h⟩

/-- C5 amended: on a fetch failure (network error or unusable payload) no
exception reaches main; the merge is skipped and the file is rewritten with
exactly the previously persisted rows. -/
theorem fetch_failure_fallback (existing : List Row) (start : Date) :
    runAndWrite existing FetchOutcome.requestError start = some existing
      ∧ runAndWrite existing FetchOutcome.badPayload start = some existing :=
  ⟨rfl, rfl⟩

lemma lookupKey_append {α : Type} (k : Nat) (l1 l2 : List (Nat × α)) :
    lookupKey k (l1 ++ l2) = (lookupKey k l1).or (lookupKey k l2) :=
  List.find?_append

lemma any_key_eq_isSome {α : Type} (k : Nat) (l : List (Nat × α)) :
    l.any (fun e => e.1 == k) = (lookupKey k l).isSome := by
  induction l with
  | nil => rfl
  | cons e t ih =>
    rw [List.any_cons, lookupKey, List.find?_cons]
    cases he : (e.1 == k) with
    | true => simp
    | false => simpa [lookupKey] using ih

lemma lookupKey_isSome_iff {α : Type} (k : Nat) (l : List (Nat × α)) :
    (lookupKey k l).isSome ↔ k ∈ l.map Prod.fst := by
  rw [lookupKey, List.find?_isSome]
  constructor
  · rintro ⟨e, he, hk⟩
    exact List.mem_map.2 ⟨e, he, by simpa using hk.symm⟩
  · rintro hk
    obtain ⟨e, he, hk⟩ := List.mem_map.1 hk
    exact ⟨e, he, by simpa using hk⟩

lemma lookupKey_map_keyfix {α : Type} (k : Nat) (f : Nat × α → Nat × α)
    (hf : ∀ e, (f e).1 = e.1) (l : List (Nat × α)) :
    lookupKey k (l.map f) = (lookupKey k l).map f := by
  induction l with
  | nil => rfl
  | cons e t ih =>
    rw [List.map_cons, lookupKey, List.find?_cons, lookupKey, List.find?_cons, hf e]
    cases he : (e.1 == k) with
    | true => rfl
    | false => simpa [lookupKey] using ih

lemma mem_iff_lookupKey {α : Type} (l : List (Nat × α))
    (h : (l.map Prod.fst).Nodup) (k : Nat) (v : α) :
    (k, v) ∈ l ↔ lookupKey k l = some (k, v) := by
  induction l with
  | nil => simp [lookupKey]
  | cons e t ih =>
    simp only [List.map_cons, List.nodup_cons] at h
    rw [lookupKey, List.find?_cons]
    cases he : (e.1 == k) with
    | true =>
      have hek : e.1 = k := by simpa using he
      constructor
      · intro hm
        rcases List.mem_cons.1 hm with hm | hm
        · rw [hm]
        · exact absurd (List.mem_map.2 ⟨(k, v), hm, rfl⟩) (hek ▸ h.1)
      · intro hs
        exact List.mem_cons.2 (Or.inl (Option.some.inj hs).symm)
    | false =>
      have hek : e.1 ≠ k := by simpa using he
      rw [← lookupKey, ← ih h.2]
      simp only [List.mem_cons, or_iff_right_iff_imp]
      intro hev
      exact absurd (congrArg Prod.fst hev.symm) hek

lemma lookupVal_foldl_addToGroups (pts : List PricePoint) (k : Nat) :
    ∀ acc : List (Nat × ℚ × Nat),
      lookupVal k (List.foldl addToGroups acc pts)
        = combineGroup (lookupVal k acc) (monthPrices k pts) := by
  induction pts with
  | nil =>
    intro acc
    cases hacc : lookupVal k acc <;> simp [combineGroup, monthPrices, hacc]
  | cons p rest ih =>
    intro acc
    rw [List.foldl_cons, ih (addToGroups acc p)]
    by_cases hk : monthKeyOf p.time = k
    · have hmp : monthPrices k (p :: rest) = p.price :: monthPrices k rest := by
        simp [monthPrices, List.filter_cons, hk]
      cases hacc : lookupVal k acc with
      | some sc =>
        obtain ⟨e, hl⟩ : ∃ e, lookupKey k acc = some e := by
          rw [lookupVal] at hacc
          cases hl : lookupKey k acc
          · rw [hl] at hacc; exact absurd hacc (by simp)
          · exact ⟨_, rfl⟩
        have hek : e.1 = k := by simpa using List.find?_some hl
        have he2 : e.2 = sc := by
          rw [lookupVal, hl] at hacc
          exact Option.some.inj hacc
        have hany : acc.any (fun g => g.1 == monthKeyOf p.time) = true := by
          rw [hk, any_key_eq_isSome, hl]
          rfl
        have hmap : lookupVal k (addToGroups acc p)
            = some (sc.1 + p.price, sc.2 + 1) := by
          rw [addToGroups, if_pos hany, lookupVal,
            lookupKey_map_keyfix k _
              (fun e => by by_cases h : e.1 = monthKeyOf p.time <;> simp [h]) acc,
            hl]
          simp [hek, hk, ← he2]
        rw [hmap, hmp]
        simp only [combineGroup, List.sum_cons, List.length_cons]
        refine congrArg some ?_
        rw [Prod.mk.injEq]
        exact ⟨by ring, by omega⟩
      | none =>
        have hnone : lookupKey k acc = none := by
          rw [lookupVal] at hacc
          cases hl : lookupKey k acc
          · rfl
          · rw [hl] at hacc; exact absurd hacc (by simp)
        have hany : acc.any (fun g => g.1 == monthKeyOf p.time) = false := by
          rw [hk, any_key_eq_isSome, hnone]
          rfl
        have hmap : lookupVal k (addToGroups acc p) = some (p.price, 1) := by
          rw [addToGroups, if_neg (by rw [hany]; exact Bool.false_ne_true), lookupVal,
            lookupKey_append, hnone]
          rw [lookupKey, List.find?_cons]
          have hbeq : ((monthKeyOf p.time, p.price, (1 : Nat)).1 == k) = true := by
            simp [hk]
          simp [hbeq]
        rw [hmap, hmp]
        simp only [combineGroup, List.sum_cons, List.length_cons]
        rw [if_neg (List.cons_ne_nil _ _)]
        refine congrArg some ?_
        rw [Prod.mk.injEq]
        exact ⟨by ring, by omega⟩
    · have hmp : monthPrices k (p :: rest) = monthPrices k rest := by
        simp [monthPrices, List.filter_cons, hk]
      have hsame : lookupVal k (addToGroups acc p) = lookupVal k acc := by
        rw [addToGroups]
        by_cases hany : acc.any (fun g => g.1 == monthKeyOf p.time) = true
        · rw [if_pos hany]
          simp only [lookupVal]
          rw [lookupKey_map_keyfix k _
            (fun e => by by_cases h : e.1 = monthKeyOf p.time <;> simp [h]) acc]
          cases hl : lookupKey k acc with
          | none => rfl
          | some e =>
            have hek : e.1 = k := by simpa using List.find?_some hl
            have hne : ¬ e.1 = monthKeyOf p.time := by
              rw [hek]
              exact fun h => hk h.symm
            simp [hne]
        · rw [if_neg hany]
          simp only [lookupVal]
          have hsing : lookupKey k [(monthKeyOf p.time, p.price, 1)] = none := by
            rw [lookupKey, List.find?_cons]
            have hbeq : ((monthKeyOf p.time, p.price, (1 : Nat)).1 == k) = false := by
              simp [hk]
            rw [hbeq]
            rfl
          rw [lookupKey_append, hsing, Option.or_none]
      rw [hsame, hmp]

lemma keys_nodup_addToGroups (acc : List (Nat × ℚ × Nat)) (p : PricePoint)
    (h : (acc.map Prod.fst).Nodup) : ((addToGroups acc p).map Prod.fst).Nodup := by
  rw [addToGroups]
  by_cases hany : acc.any (fun g => g.1 == monthKeyOf p.time) = true
  · rw [if_pos hany]
    have hkeys : (acc.map (fun g =>
        if g.1 == monthKeyOf p.time then (g.1, g.2.1 + p.price, g.2.2 + 1) else g)).map
          Prod.fst = acc.map Prod.fst := by
      rw [List.map_map]
      apply List.map_congr_left
      intro e _
      by_cases he : e.1 = monthKeyOf p.time <;> simp [he]
    rw [hkeys]
    exact h
  · rw [if_neg hany]
    have hK : monthKeyOf p.time ∉ acc.map Prod.fst := by
      intro hmem
      exact hany (by rw [any_key_eq_isSome, (lookupKey_isSome_iff _ _).2 hmem])
    simp only [List.map_append, List.map_cons, List.map_nil]
    simp [List.nodup_append, h, hK]

lemma keys_nodup_groupByMonth (pts : List PricePoint) :
    ((groupByMonth pts).map Prod.fst).Nodup := by
  rw [groupByMonth]
  have h : ∀ acc : List (Nat × ℚ × Nat), (acc.map Prod.fst).Nodup →
      ((List.foldl addToGroups acc pts).map Prod.fst).Nodup := by
    induction pts with
    | nil => intro acc hacc; simpa using hacc
    | cons p rest ih =>
      intro acc hacc
      rw [List.foldl_cons]
      exact ih _ (keys_nodup_addToGroups acc p hacc)
  exact h [] (by simp)

/-- C6: the Aggregator produces one entry per distinct month key, in strictly
ascending key order, whose value is the unweighted arithmetic mean of the
prices of that month; a month with no observations never appears. -/
theorem monthly_avg_correct (pts : List PricePoint) :
    ((get_monthly_avg pts).map Prod.fst).Pairwise (· < ·)
      ∧ ∀ k v, ((k, v) ∈ get_monthly_avg pts ↔
          monthPrices k pts ≠ []
            ∧ v = (monthPrices k pts).sum / ((monthPrices k pts).length : ℚ)) := by
  have hperm : (get_monthly_avg pts).Perm
      ((groupByMonth pts).map (fun g => (g.1, g.2.1 / (g.2.2 : ℚ)))) :=
    List.perm_insertionSort _ _
  have hnodupG : ((groupByMonth pts).map Prod.fst).Nodup := keys_nodup_groupByMonth pts
  have hkeysM : (((groupByMonth pts).map (fun g => (g.1, g.2.1 / (g.2.2 : ℚ)))).map
      Prod.fst) = (groupByMonth pts).map Prod.fst := by
    rw [List.map_map]
    rfl
  have hnodupS : ((get_monthly_avg pts).map Prod.fst).Nodup := by
    have hp : ((get_monthly_avg pts).map Prod.fst).Perm
        (((groupByMonth pts).map (fun g => (g.1, g.2.1 / (g.2.2 : ℚ)))).map Prod.fst) :=
      hperm.map _
    rw [hp.nodup_iff, hkeysM]
    exact hnodupG
  constructor
  · have hle : (get_monthly_avg pts).Pairwise (fun a b => a.1 ≤ b.1) :=
      List.sorted_insertionSort _ _
    have hne : (get_monthly_avg pts).Pairwise (fun a b => a.1 ≠ b.1) :=
      (List.pairwise_map).1 hnodupS
    rw [List.pairwise_map]
    exact (hle.and hne).imp (fun h => lt_of_le_of_ne h.1 h.2)
  · intro k v
    rw [hperm.mem_iff]
    have hfoldk := lookupVal_foldl_addToGroups pts k []
    have hnil : lookupVal k ([] : List (Nat × ℚ × Nat)) = none := rfl
    rw [hnil] at hfoldk
    simp only [combineGroup] at hfoldk
    constructor
    · intro hm
      obtain ⟨g, hg, hgeq⟩ := List.mem_map.1 hm
      have h1 : g.1 = k := congrArg Prod.fst hgeq
      have h2 : g.2.1 / (g.2.2 : ℚ) = v := congrArg Prod.snd hgeq
      have hmem : (k, g.2) ∈ groupByMonth pts := by
        rw [← h1]
        exact hg
      have hlk := (mem_iff_lookupKey _ hnodupG k g.2).1 hmem
      have hlv : lookupVal k (groupByMonth pts) = some g.2 := by
        rw [lookupVal, hlk]
        rfl
      rw [groupByMonth] at hlv
      rw [hlv] at hfoldk
      by_cases hmp : monthPrices k pts = []
      · rw [if_pos hmp] at hfoldk
        exact absurd hfoldk (by simp)
      · rw [if_neg hmp] at hfoldk
        have hg2 : g.2 = ((monthPrices k pts).sum, (monthPrices k pts).length) :=
          Option.some.inj hfoldk
        refine ⟨hmp, ?_⟩
        rw [← h2, hg2]
    · rintro ⟨hmp, rfl⟩
      rw [if_neg hmp] at hfoldk
      have hlv : lookupVal k (groupByMonth pts)
          = some ((monthPrices k pts).sum, (monthPrices k pts).length) := by
        rw [groupByMonth]
        exact hfoldk
      rw [lookupVal] at hlv
      cases hlk : lookupKey k (groupByMonth pts) with
      | none => rw [hlk] at hlv; exact absurd hlv (by simp)
      | some e =>
        rw [hlk] at hlv
        have he2 : e.2 = ((monthPrices k pts).sum, (monthPrices k pts).length) :=
          Option.some.inj hlv
        have hek : e.1 = k := by simpa using List.find?_some hlk
        have hmem : e ∈ groupByMonth pts := List.mem_of_find?_eq_some hlk
        refine List.mem_map.2 ⟨e, hmem, ?_⟩
        rw [hek, he2]

lemma lookupVal_append {α : Type} (k : Nat) (l1 l2 : List (Nat × α)) :
    lookupVal k (l1 ++ l2) = (lookupVal k l1).or (lookupVal k l2) := by
  simp only [lookupVal, lookupKey_append]
  cases lookupKey k l1 <;> simp

lemma lookupVal_foldl_insertDaily (items : List RawGasItem) (k : Nat) :
    ∀ acc : List (Nat × GasEntry),
      lookupVal k (List.foldl insertDaily acc items)
        = (lookupVal k acc).or (firstWithKey k items) := by
  induction items with
  | nil =>
    intro acc
    cases hacc : lookupVal k acc <;> simp [firstWithKey, hacc]
  | cons i rest ih =>
    intro acc
    rw [List.foldl_cons, ih (insertDaily acc i)]
    by_cases hK : dateKeyOf i.date = k
    · cases ho : i.allInPrijs with
      | some cents =>
        have hfw : firstWithKey k (i :: rest)
            = some (GasEntry.mk i.date (cents / 100)) := by
          rw [firstWithKey, List.find?_cons]
          have hp : (dateKeyOf i.date == k && i.allInPrijs.isSome) = true := by
            simp [hK, ho]
          rw [hp]
          simp [ho]
        by_cases hany : acc.any (fun e => e.1 == dateKeyOf i.date) = true
        · have hins : insertDaily acc i = acc := by rw [insertDaily, if_pos hany]
          have hsome : (lookupKey k acc).isSome := by
            rw [← any_key_eq_isSome, ← hK]
            exact hany
          obtain ⟨e, he⟩ := Option.isSome_iff_exists.1 hsome
          have hval : lookupVal k acc = some e.2 := by
            rw [lookupVal, he]
            rfl
          rw [hins, hfw, hval]
          rfl
        · have hins : insertDaily acc i
              = acc ++ [(dateKeyOf i.date, GasEntry.mk i.date (cents / 100))] := by
            rw [insertDaily, if_neg hany, ho]
          have hnoneK : lookupKey k acc = none := by
            cases hl : lookupKey k acc with
            | none => rfl
            | some e =>
              exfalso
              apply hany
              rw [hK, any_key_eq_isSome, hl]
              rfl
          have hval : lookupVal k acc = none := by
            rw [lookupVal, hnoneK]
            rfl
          have hsing : lookupVal k [(dateKeyOf i.date, GasEntry.mk i.date (cents / 100))]
              = some (GasEntry.mk i.date (cents / 100)) := by
            rw [lookupVal, lookupKey, List.find?_cons]
            have hb : ((dateKeyOf i.date, GasEntry.mk i.date (cents / 100)).1 == k) = true := by
              simp [hK]
            rw [hb]
            rfl
          rw [hins, lookupVal_append, hval, hsing, hfw]
          rfl
      | none =>
        have hfw : firstWithKey k (i :: rest) = firstWithKey k rest := by
          rw [firstWithKey, List.find?_cons]
          have hp : (dateKeyOf i.date == k && i.allInPrijs.isSome) = false := by
            simp [ho]
          rw [hp]
          rfl
        have hins : insertDaily acc i = acc := by
          rw [insertDaily, ho]
          by_cases hany : acc.any (fun e => e.1 == dateKeyOf i.date) = true
          · rw [if_pos hany]
          · rw [if_neg hany]
        rw [hins, hfw]
    · have hfw : firstWithKey k (i :: rest) = firstWithKey k rest := by
        rw [firstWithKey, List.find?_cons]
        have hp : (dateKeyOf i.date == k && i.allInPrijs.isSome) = false := by
          simp [hK]
        rw [hp]
        rfl
      have hins : lookupVal k (insertDaily acc i) = lookupVal k acc := by
        rw [insertDaily]
        by_cases hany : acc.any (fun e => e.1 == dateKeyOf i.date) = true
        · rw [if_pos hany]
        · rw [if_neg hany]
          cases ho : i.allInPrijs with
          | none => rfl
          | some cents =>
            rw [lookupVal_append]
            have hsing : lookupVal k
                [(dateKeyOf i.date, GasEntry.mk i.date (cents / 100))] = none := by
              rw [lookupVal, lookupKey, List.find?_cons]
              have hb : ((dateKeyOf i.date, GasEntry.mk i.date (cents / 100)).1 == k)
                  = false := by
                simp [hK]
              rw [hb]
              rfl
            rw [hsing, Option.or_none]
      rw [hins, hfw]

lemma keys_nodup_insertDaily (d : List (Nat × GasEntry)) (i : RawGasItem)
    (h : (d.map Prod.fst).Nodup) : ((insertDaily d i).map Prod.fst).Nodup := by
  rw [insertDaily]
  by_cases hany : d.any (fun e => e.1 == dateKeyOf i.date) = true
  · rw [if_pos hany]
    exact h
  · rw [if_neg hany]
    cases ho : i.allInPrijs with
    | none => exact h
    | some cents =>
      have hK : dateKeyOf i.date ∉ d.map Prod.fst := by
        rw [any_key_eq_isSome] at hany
        intro hmem
        exact hany ((lookupKey_isSome_iff _ _).2 hmem)
      simp only [List.map_append, List.map_cons, List.map_nil]
      simp [List.nodup_append, h, hK]

lemma keys_nodup_batch (items : List RawGasItem) :
    ((fetch_anwb_gas_prices_batch items).map Prod.fst).Nodup := by
  rw [fetch_anwb_gas_prices_batch]
  have h : ∀ acc : List (Nat × GasEntry), (acc.map Prod.fst).Nodup →
      ((List.foldl insertDaily acc items).map Prod.fst).Nodup := by
    induction items with
    | nil =>
      intro acc hacc
      simpa using hacc
    | cons i rest ih =>
      intro acc hacc
      rw [List.foldl_cons]
      exact ih _ (keys_nodup_insertDaily acc i hacc)
  exact h [] (by simp)

lemma lookupVal_cons_eq (k : Nat) (kv : Nat × GasEntry) (rest : List (Nat × GasEntry))
    (hk : kv.1 = k) : lookupVal k (kv :: rest) = some kv.2 := by
  rw [lookupVal, lookupKey, List.find?_cons]
  have hb : (kv.1 == k) = true := by simp [hk]
  rw [hb]
  rfl

lemma lookupVal_cons_ne (k : Nat) (kv : Nat × GasEntry) (rest : List (Nat × GasEntry))
    (hk : ¬ kv.1 = k) : lookupVal k (kv :: rest) = lookupVal k rest := by
  rw [lookupVal, lookupKey, List.find?_cons]
  have hb : (kv.1 == k) = false := by simp [hk]
  rw [hb]
  rfl

lemma lookupVal_updateEntry_eq (old : List (Nat × GasEntry)) (kv : Nat × GasEntry)
    (k : Nat) (hk : kv.1 = k) : lookupVal k (updateEntry old kv) = some kv.2 := by
  rw [updateEntry]
  by_cases hany : old.any (fun e => e.1 == kv.1) = true
  · rw [if_pos hany]
    have hsome : (lookupKey k old).isSome := by
      rw [hk] at hany
      rw [← any_key_eq_isSome]
      exact hany
    obtain ⟨e, he⟩ := Option.isSome_iff_exists.1 hsome
    have hek : e.1 = k := by simpa using List.find?_some he
    rw [lookupVal, lookupKey_map_keyfix k _
      (fun e => by by_cases h : e.1 = kv.1 <;> simp [h]) old, he]
    have hekv : e.1 = kv.1 := by rw [hek, hk]
    simp [hekv]
  · rw [if_neg hany, lookupVal_append]
    have hnone : lookupVal k old = none := by
      rw [lookupVal]
      cases hl : lookupKey k old with
      | none => rfl
      | some e =>
        exfalso
        apply hany
        rw [hk, any_key_eq_isSome, hl]
        rfl
    rw [hnone, lookupVal_cons_eq k kv [] hk]
    rfl

lemma lookupVal_updateEntry_ne (old : List (Nat × GasEntry)) (kv : Nat × GasEntry)
    (k : Nat) (hk : ¬ kv.1 = k) : lookupVal k (updateEntry old kv) = lookupVal k old := by
  rw [updateEntry]
  by_cases hany : old.any (fun e => e.1 == kv.1) = true
  · rw [if_pos hany]
    simp only [lookupVal]
    rw [lookupKey_map_keyfix k _
      (fun e => by by_cases h : e.1 = kv.1 <;> simp [h]) old]
    cases hl : lookupKey k old with
    | none => rfl
    | some e =>
      have hek : e.1 = k := by simpa using List.find?_some hl
      have hne : ¬ e.1 = kv.1 := by
        rw [hek]
        exact fun h => hk h.symm
      simp [hne]
  · rw [if_neg hany, lookupVal_append, lookupVal_cons_ne k kv [] hk]
    have hnil : lookupVal k ([] : List (Nat × GasEntry)) = none := rfl
    rw [hnil, Option.or_none]

lemma lookupVal_dictUpdate (newEntries : List (Nat × GasEntry)) (k : Nat) :
    ∀ old : List (Nat × GasEntry), (newEntries.map Prod.fst).Nodup →
      lookupVal k (dictUpdate old newEntries)
        = (lookupVal k newEntries).or (lookupVal k old) := by
  induction newEntries with
  | nil =>
    intro old _
    rfl
  | cons kv rest ih =>
    intro old hnodup
    simp only [List.map_cons, List.nodup_cons] at hnodup
    have hstep : dictUpdate old (kv :: rest) = dictUpdate (updateEntry old kv) rest := rfl
    rw [hstep, ih (updateEntry old kv) hnodup.2]
    by_cases hk : kv.1 = k
    · have hrest : lookupVal k rest = none := by
        rw [lookupVal]
        cases hl : lookupKey k rest with
        | none => rfl
        | some e =>
          exfalso
          have hs : (lookupKey k rest).isSome := by
            rw [hl]
            rfl
          have hmem := (lookupKey_isSome_iff k rest).1 hs
          rw [← hk] at hmem
          exact hnodup.1 hmem
      rw [hrest, lookupVal_updateEntry_eq old kv k hk, lookupVal_cons_eq k kv rest hk]
      rfl
    · rw [lookupVal_updateEntry_ne old kv k hk, lookupVal_cons_ne k kv rest hk]

lemma lookupVal_gasBatches (batches : List (Option (List RawGasItem))) (k : Nat) :
    ∀ acc : List (Nat × GasEntry),
      lookupVal k (List.foldl
          (fun acc ob => match ob with
            | none => acc
            | some items => dictUpdate acc (fetch_anwb_gas_prices_batch items)) acc batches)
        = (lastSome (batches.map (fun ob =>
            ob.bind (fun its => lookupVal k (fetch_anwb_gas_prices_batch its))))).or
            (lookupVal k acc) := by
  induction batches with
  | nil =>
    intro acc
    rfl
  | cons ob rest ih =>
    intro acc
    rw [List.foldl_cons, ih _]
    cases ob with
    | none =>
      rw [List.map_cons, lastSome]
      simp [Option.or_none]
    | some its =>
      rw [lookupVal_dictUpdate (fetch_anwb_gas_prices_batch its) k acc (keys_nodup_batch its)]
      rw [List.map_cons, lastSome]
      simp [Option.or_assoc]

/-- C7 fails on the code across batches: two raw records on the same calendar
date arriving in different 90-day batches are resolved in favor of the LATER
batch (dict.update overwrites), not the first record in provider response
order. Here the first record (10:00, 1 euro) is discarded and the second
batch's record (11:00, 2 euro) is kept. -/
theorem gas_dedup_counterexample :
    get_dynamic_gas_prices
        [some [⟨⟨2024, 1, 5, 10, 0⟩, some 100⟩],
         some [⟨⟨2024, 1, 5, 11, 0⟩, some 200⟩]]
      = [⟨⟨2024, 1, 5, 11, 0⟩, 2⟩]
    ∧ (⟨⟨2024, 1, 5, 10, 0⟩, 1⟩ : GasEntry) ∉
        get_dynamic_gas_prices
          [some [⟨⟨2024, 1, 5, 10, 0⟩, some 100⟩],
           some [⟨⟨2024, 1, 5, 11, 0⟩, some 200⟩]] := by
  have h2 : (200 : ℚ) / 100 = 2 := by norm_num
  constructor
  · simp [get_dynamic_gas_prices, gasBatchesDict, dictUpdate, updateEntry,
      fetch_anwb_gas_prices_batch, insertDaily, dateKeyOf, List.insertionSort,
      List.orderedInsert, h2]
  · simp [get_dynamic_gas_prices, gasBatchesDict, dictUpdate, updateEntry,
      fetch_anwb_gas_prices_batch, insertDaily, dateKeyOf, List.insertionSort,
      List.orderedInsert, h2, GasEntry.mk.injEq, UTCTime.mk.injEq]

/-- C7 amended: within a single batch, the first record per calendar date that
carries a price wins and later same-date records are discarded regardless of
price; across batches, the last batch containing a date key overwrites the
earlier ones. -/
theorem gas_dedup_precedence (items : List RawGasItem)
    (batches : List (Option (List RawGasItem))) (k : Nat) :
    lookupVal k (fetch_anwb_gas_prices_batch items) = firstWithKey k items
    ∧ lookupVal k (gasBatchesDict batches)
        = lastSome (batches.map (fun ob =>
            ob.bind (fun its => lookupVal k (fetch_anwb_gas_prices_batch its)))) := by
  constructor
  · rw [fetch_anwb_gas_prices_batch, lookupVal_foldl_insertDaily items k []]
    rfl
  · rw [gasBatchesDict, lookupVal_gasBatches batches k []]
    have hnil : lookupVal k ([] : List (Nat × GasEntry)) = none := rfl
    rw [hnil, Option.or_none]

lemma wf_insertDaily (d : List (Nat × GasEntry)) (i : RawGasItem)
    (hd : ∀ e ∈ d, WFEntry e) (hi : WFTime i.date) :
    ∀ e ∈ insertDaily d i, WFEntry e := by
  intro e he
  rw [insertDaily] at he
  by_cases hany : d.any (fun x => x.1 == dateKeyOf i.date) = true
  · rw [if_pos hany] at he
    exact hd e he
  · rw [if_neg hany] at he
    cases ho : i.allInPrijs with
    | none =>
      rw [ho] at he
      exact hd e he
    | some cents =>
      rw [ho] at he
      rcases List.mem_append.1 he with h | h
      · exact hd e h
      · have heq : e = (dateKeyOf i.date, GasEntry.mk i.date (cents / 100)) :=
          List.mem_singleton.1 h
        rw [heq]
        exact ⟨rfl, hi⟩

lemma wf_batch (items : List RawGasItem) (h : ∀ it ∈ items, WFTime it.date) :
    ∀ e ∈ fetch_anwb_gas_prices_batch items, WFEntry e := by
  rw [fetch_anwb_gas_prices_batch]
  have hgen : ∀ acc : List (Nat × GasEntry), (∀ e ∈ acc, WFEntry e) →
      ∀ e ∈ List.foldl insertDaily acc items, WFEntry e := by
    induction items with
    | nil =>
      intro acc hacc
      simpa using hacc
    | cons i rest ih =>
      intro acc hacc
      rw [List.foldl_cons]
      exact ih (fun it hit => h it (List.mem_cons_of_mem i hit)) _
        (wf_insertDaily acc i hacc (h i (List.mem_cons_self i rest)))
  exact hgen [] (by simp)

lemma wf_updateEntry (old : List (Nat × GasEntry)) (kv : Nat × GasEntry)
    (ho : ∀ e ∈ old, WFEntry e) (hkv : WFEntry kv) :
    ∀ e ∈ updateEntry old kv, WFEntry e := by
  intro e he
  rw [updateEntry] at he
  by_cases hany : old.any (fun x => x.1 == kv.1) = true
  · rw [if_pos hany] at he
    obtain ⟨x, hx, hxe⟩ := List.mem_map.1 he
    by_cases hb : x.1 = kv.1
    · rw [← hxe]
      simp only [hb, beq_self_eq_true, if_true]
      exact ⟨by rw [hkv.1, ← hb], hkv.2⟩
    · rw [← hxe]
      have hbeq : (x.1 == kv.1) = false := by simp [hb]
      simp only [hbeq, Bool.false_eq_true, if_false]
      exact ho x hx
  · rw [if_neg hany] at he
    rcases List.mem_append.1 he with h | h
    · exact ho e h
    · rw [List.mem_singleton.1 h]
      exact hkv

lemma wf_dictUpdate (newEntries : List (Nat × GasEntry)) :
    ∀ old : List (Nat × GasEntry), (∀ e ∈ old, WFEntry e) →
      (∀ e ∈ newEntries, WFEntry e) →
      ∀ e ∈ dictUpdate old newEntries, WFEntry e := by
  induction newEntries with
  | nil =>
    intro old ho _
    simpa [dictUpdate] using ho
  | cons kv rest ih =>
    intro old ho hn
    have hstep : dictUpdate old (kv :: rest) = dictUpdate (updateEntry old kv) rest := rfl
    rw [hstep]
    exact ih (updateEntry old kv)
      (wf_updateEntry old kv ho (hn kv (List.mem_cons_self kv rest)))
      (fun e he => hn e (List.mem_cons_of_mem kv he))

lemma wf_gasBatchesDict (batches : List (Option (List RawGasItem)))
    (h : ∀ ob ∈ batches, ∀ it ∈ ob.getD [], WFTime it.date) :
    ∀ e ∈ gasBatchesDict batches, WFEntry e := by
  rw [gasBatchesDict]
  have hgen : ∀ acc : List (Nat × GasEntry), (∀ e ∈ acc, WFEntry e) →
      ∀ e ∈ List.foldl
        (fun acc ob => match ob with
          | none => acc
          | some items => dictUpdate acc (fetch_anwb_gas_prices_batch items)) acc batches,
        WFEntry e := by
    induction batches with
    | nil =>
      intro acc hacc
      simpa using hacc
    | cons ob rest ih =>
      intro acc hacc
      rw [List.foldl_cons]
      cases ob with
      | none => exact ih (fun o ho it hit => h o (List.mem_cons_of_mem _ ho) it hit) acc hacc
      | some its =>
        refine ih (fun o ho it hit => h o (List.mem_cons_of_mem _ ho) it hit) _ ?_
        refine wf_dictUpdate _ acc hacc (wf_batch its ?_)
        intro it hit
        exact h (some its) (List.mem_cons_self _ rest) it hit
  exact hgen [] (by simp)

lemma keys_nodup_updateEntry (old : List (Nat × GasEntry)) (kv : Nat × GasEntry)
    (h : (old.map Prod.fst).Nodup) : ((updateEntry old kv).map Prod.fst).Nodup := by
  rw [updateEntry]
  by_cases hany : old.any (fun e => e.1 == kv.1) = true
  · rw [if_pos hany]
    have hkeys : ((old.map (fun e => if e.1 == kv.1 then (e.1, kv.2) else e)).map
        Prod.fst) = old.map Prod.fst := by
      rw [List.map_map]
      apply List.map_congr_left
      intro e _
      by_cases hb : e.1 = kv.1 <;> simp [hb]
    rw [hkeys]
    exact h
  · rw [if_neg hany]
    have hK : kv.1 ∉ old.map Prod.fst := by
      rw [any_key_eq_isSome] at hany
      intro hmem
      exact hany ((lookupKey_isSome_iff _ _).2 hmem)
    simp only [List.map_append, List.map_cons, List.map_nil]
    simp [List.nodup_append, h, hK]

lemma keys_nodup_dictUpdate (newEntries : List (Nat × GasEntry)) :
    ∀ old : List (Nat × GasEntry), (old.map Prod.fst).Nodup →
      ((dictUpdate old newEntries).map Prod.fst).Nodup := by
  induction newEntries with
  | nil =>
    intro old h
    simpa [dictUpdate] using h
  | cons kv rest ih =>
    intro old h
    have hstep : dictUpdate old (kv :: rest) = dictUpdate (updateEntry old kv) rest := rfl
    rw [hstep]
    exact ih _ (keys_nodup_updateEntry old kv h)

lemma keys_nodup_gasBatchesDict (batches : List (Option (List RawGasItem))) :
    ((gasBatchesDict batches).map Prod.fst).Nodup := by
  rw [gasBatchesDict]
  have hgen : ∀ acc : List (Nat × GasEntry), (acc.map Prod.fst).Nodup →
      ((List.foldl
        (fun acc ob => match ob with
          | none => acc
          | some items => dictUpdate acc (fetch_anwb_gas_prices_batch items)) acc
            batches).map Prod.fst).Nodup := by
    induction batches with
    | nil =>
      intro acc hacc
      simpa using hacc
    | cons ob rest ih =>
      intro acc hacc
      rw [List.foldl_cons]
      cases ob with
      | none => exact ih acc hacc
      | some its => exact ih _ (keys_nodup_dictUpdate _ acc hacc)
  exact hgen [] (by simp)

lemma timeKey_eq_dateKey {a b : UTCTime} (ha : WFTime a) (hb : WFTime b)
    (h : timeKeyOf a = timeKeyOf b) : dateKeyOf a = dateKeyOf b := by
  rcases ha with ⟨ha1, ha2⟩
  rcases hb with ⟨hb1, hb2⟩
  rw [timeKeyOf, timeKeyOf] at h
  rw [dateKeyOf, dateKeyOf]
  omega

/-- C10: whenever the gas fetch returns rows (with in-range timestamps), the
DataFrame has at most one row per UTC calendar date and its rows are sorted
strictly ascending by timestamp, across any number of sequential 90-day
batches including erroring batches. -/
theorem gas_series_sorted_unique (batches : List (Option (List RawGasItem)))
    (hwf : ∀ ob ∈ batches, ∀ it ∈ ob.getD [], WFTime it.date) :
    (get_dynamic_gas_prices batches).Pairwise
        (fun a b => dateKeyOf a.time ≠ dateKeyOf b.time)
    ∧ (get_dynamic_gas_prices batches).Pairwise
        (fun a b => timeKeyOf a.time < timeKeyOf b.time) := by
  have hnodup := keys_nodup_gasBatchesDict batches
  have hwfd := wf_gasBatchesDict batches hwf
  have hvals : ((gasBatchesDict batches).map Prod.snd).Pairwise
      (fun a b => dateKeyOf a.time ≠ dateKeyOf b.time) := by
    rw [List.pairwise_map]
    have hnodupP : (gasBatchesDict batches).Pairwise (fun a b => a.1 ≠ b.1) :=
      (List.pairwise_map).1 hnodup
    refine List.Pairwise.imp_of_mem ?_ hnodupP
    intro a b ha hb hne hdeq
    apply hne
    rw [← (hwfd a ha).1, ← (hwfd b hb).1, hdeq]
  have hperm : (get_dynamic_gas_prices batches).Perm
      ((gasBatchesDict batches).map Prod.snd) := List.perm_insertionSort _ _
  have hvalsS : (get_dynamic_gas_prices batches).Pairwise
      (fun a b => dateKeyOf a.time ≠ dateKeyOf b.time) :=
    (hperm.pairwise_iff (fun hab h => hab h.symm)).2 hvals
  have hwfres : ∀ x ∈ get_dynamic_gas_prices batches, WFTime x.time := by
    intro x hx
    have hx2 := hperm.mem_iff.1 hx
    obtain ⟨e, he, hxe⟩ := List.mem_map.1 hx2
    rw [← hxe]
    exact (hwfd e he).2
  refine ⟨hvalsS, ?_⟩
  have hsorted : (get_dynamic_gas_prices batches).Pairwise
      (fun a b => timeKeyOf a.time ≤ timeKeyOf b.time) := List.sorted_insertionSort _ _
  refine List.Pairwise.imp_of_mem ?_ (hsorted.and hvalsS)
  intro a b ha hb hab
  rcases hab with ⟨hle, hne⟩
  rcases Nat.lt_or_ge (timeKeyOf a.time) (timeKeyOf b.time) with h | h
  · exact h
  · exfalso
    exact hne (timeKey_eq_dateKey (hwfres a ha) (hwfres b hb) (Nat.le_antisymm hle h))

/-- Witness for gas_series_sorted_unique: two in-range days in one batch
followed by a failing batch. -/
theorem gas_series_sorted_unique_witness :
    (∀ ob ∈ ([some [⟨⟨2024, 1, 5, 10, 0⟩, some 100⟩, ⟨⟨2024, 1, 6, 11, 30⟩, some 150⟩],
        none] : List (Option (List RawGasItem))), ∀ it ∈ ob.getD [], WFTime it.date)
    ∧ ((get_dynamic_gas_prices
          [some [⟨⟨2024, 1, 5, 10, 0⟩, some 100⟩, ⟨⟨2024, 1, 6, 11, 30⟩, some 150⟩],
           none]).Pairwise (fun a b => dateKeyOf a.time ≠ dateKeyOf b.time)
        ∧ (get_dynamic_gas_prices
            [some [⟨⟨2024, 1, 5, 10, 0⟩, some 100⟩, ⟨⟨2024, 1, 6, 11, 30⟩, some 150⟩],
             none]).Pairwise (fun a b => timeKeyOf a.time < timeKeyOf b.time)) :=
  ⟨by decide, gas_series_sorted_unique _ (by decide)⟩

set_option maxRecDepth 10000 in
lemma month_label_roundtrip_bounded : ∀ y, y < 69 → ∀ m, m < 12 →
    (month_gt_mar25 (relabelDate (keyStr (2000 + y) (m + 1)))
        = month_gt_mar25 (keyStr (2000 + y) (m + 1))
      ∧ month_gt_mar25 (keyStr (2000 + y) (m + 1))
        = decide (2025 < 2000 + y ∨ (2000 + y = 2025 ∧ 3 < m + 1))
      ∧ relabelDate (keyStr (2000 + y) (m + 1)) = toLabel (2000 + y) (m + 1)) := by
  decide

/-- C8: for every month key in the %y-representable range, relabeling
"YYYY-MM" to the lowercase three-letter "mon-yy" label and testing the label
in the cutoff filter agrees with testing the original key, both selecting
exactly the months strictly after 2025-03; the relabeling is the %b-%y
conversion over the fixed C-locale abbreviation table (the program never
changes the process locale). -/
theorem month_label_roundtrip (y m : Nat)
    (hy1 : 2000 ≤ y) (hy2 : y ≤ 2068) (hm1 : 1 ≤ m) (hm2 : m ≤ 12) :
    month_gt_mar25 (relabelDate (keyStr y m)) = month_gt_mar25 (keyStr y m)
    ∧ month_gt_mar25 (keyStr y m) = decide (2025 < y ∨ (y = 2025 ∧ 3 < m))
    ∧ relabelDate (keyStr y m) = toLabel y m := by
  have hy : y = 2000 + (y - 2000) := by omega
  have hm : m = (m - 1) + 1 := by omega
  rw [hy, hm]
  exact month_label_roundtrip_bounded (y - 2000) (by omega) (m - 1) (by omega)

/-- Witness for month_label_roundtrip at the spec's example month 2025-04
(label "apr-25"). -/
theorem month_label_roundtrip_witness :
    ((2000 : Nat) ≤ 2025 ∧ (2025 : Nat) ≤ 2068 ∧ (1 : Nat) ≤ 4 ∧ (4 : Nat) ≤ 12)
    ∧ (month_gt_mar25 (relabelDate (keyStr 2025 4)) = month_gt_mar25 (keyStr 2025 4)
      ∧ month_gt_mar25 (keyStr 2025 4) = decide (2025 < 2025 ∨ (2025 = 2025 ∧ 3 < 4))
      ∧ relabelDate (keyStr 2025 4) = toLabel 2025 4) :=
  ⟨by decide,
    month_label_roundtrip 2025 4 (by decide) (by decide) (by decide) (by decide)⟩

/-- C9 fails on the code: the stored total price also includes a 21% VAT term
on top of base + energy tax + procurement; at spot price 0.30 in 2025 the
breakdown total is 0.5342634, while base + tax + procurement is 0.44154. -/
theorem reconciled_total_counterexample :
    (entsoe_price_breakdown ⟨2025, 1, 15, 12, 0⟩ 0.3).total_price = 0.5342634
    ∧ (entsoe_price_breakdown ⟨2025, 1, 15, 12, 0⟩ 0.3).total_price
        ≠ (entsoe_price_breakdown ⟨2025, 1, 15, 12, 0⟩ 0.3).base_price
          + (entsoe_price_breakdown ⟨2025, 1, 15, 12, 0⟩ 0.3).energy_tax
          + (entsoe_price_breakdown ⟨2025, 1, 15, 12, 0⟩ 0.3).procurement_costs := by
  constructor
  · norm_num [entsoe_price_breakdown, calculate_energy_tax_rate]
  · norm_num [entsoe_price_breakdown, calculate_energy_tax_rate]

/-- C9 amended: the hourly breakdown stores total_price = base_price +
energy_tax + procurement_costs + vat, with vat equal to 21% of the sum of the
first three and no rounding; the monthly CSV builder stores, per month, the
all-in monthly price rounded (half to even) to 5 decimals, and the month key
unchanged. -/
theorem reconciled_total_amended (t : UTCTime) (price : ℚ)
    (monthly : List (Nat × ℚ)) :
    (entsoe_price_breakdown t price).total_price
        = (entsoe_price_breakdown t price).base_price
          + (entsoe_price_breakdown t price).energy_tax
          + (entsoe_price_breakdown t price).procurement_costs
          + (entsoe_price_breakdown t price).vat
    ∧ (entsoe_price_breakdown t price).vat
        = ((entsoe_price_breakdown t price).base_price
            + (entsoe_price_breakdown t price).energy_tax
            + (entsoe_price_breakdown t price).procurement_costs) * 0.21
    ∧ (build_monthly_csv monthly).map Row.total_price
        = monthly.map (fun g => pyRound5 g.2)
    ∧ (build_monthly_csv monthly).map Row.month = monthly.map Prod.fst := by
  refine ⟨rfl, rfl, ?_, ?_⟩
  · rw [build_monthly_csv, List.map_map]
    rfl
  · rw [build_monthly_csv, List.map_map]
    rfl

end EnergyPrices
